import Mathlib

/-!
Verification of the LanguageLearner repository (neilx/LanguageLearner).

This file is a shallow embedding, in Lean 4, of the scheduling, caching,
compilation, validation and orchestration logic of the repository.  The two
relevant Python sources are `src/language_learner.py` (the "v1.8" module,
called LL below) and the integrated "v3.0" module embedded in
`src/run_tests.py` (called RT below).  Python `int` is modelled by `Int`
(or `Nat` where the value is a count), Python `float` durations by `ℚ`,
Python strings by `String`, dictionaries by association lists or functions,
and the filesystem by an explicit state record.  Fallible operations are
modelled with `Option`/`Except`.
-/

/-- Schema of one row of the master item list (`sentence_pairs.csv`), after
`load_and_validate_source_data` has converted `StudyDay` to `int`
(LL lines 498-518). -/
structure MasterItem where
  W2 : String
  W1 : String
  L1 : String
  L2 : String
  StudyDay : Int
deriving DecidableEq, Repr

/-- Schema of a single entry of a generated schedule: the `ScheduleItem`
TypedDict of LL lines 34-42. -/
structure ScheduleItem where
  W2 : String
  W1 : String
  L1 : String
  L2 : String
  StudyDay : Int
  type : String
  repetition : Int
deriving DecidableEq, Repr

namespace Config

/-- `Config.MACRO_REPETITION_INTERVALS` of LL line 94. -/
def MACRO_REPETITION_INTERVALS : List Int := [1, 3, 7, 14, 30, 16, 120, 240]

/-- `Config.MICRO_REPETITIONS_COUNT` of LL line 92. -/
def MICRO_REPETITIONS_COUNT : Nat := 3

/-- `Config.REVIEW_REPETITION_COUNT` of LL line 93. -/
def REVIEW_REPETITION_COUNT : Int := 0

/-- `Config.MICRO_SPACING_INTERVALS` of RT line 198. -/
def MICRO_SPACING_INTERVALS : List Int := [0, 3, 7, 14, 28]

/-- `Config.CONTENT_KEYS` of LL line 73 (identical in RT line 178). -/
def CONTENT_KEYS : List String := ["W2", "W1", "L1", "L2"]

end Config

/-- `ScheduleType.NEW.value` (LL line 46). -/
def ScheduleTypeNEW : String := "micro_new"

/-- `ScheduleType.REVIEW.value` (LL line 47). -/
def ScheduleTypeREVIEW : String := "macro_review"

/-- The review entry built from a history item inside
`generate_full_repetition_schedule` (LL lines 533-538): all four content
fields and the original study day are copied, `type` is the review constant
and `repetition` is `Config.REVIEW_REPETITION_COUNT = 0`. -/
def mkReviewItem (it : MasterItem) : ScheduleItem :=
  { W2 := it.W2, W1 := it.W1, L1 := it.L1, L2 := it.L2,
    StudyDay := it.StudyDay, type := ScheduleTypeREVIEW,
    repetition := Config.REVIEW_REPETITION_COUNT }

/-- One `micro_new` entry of LL lines 546-551 for repetition number `rep`. -/
def mkNewItem (currentDay : Int) (rep : Int) (it : MasterItem) : ScheduleItem :=
  { W2 := it.W2, W1 := it.W1, L1 := it.L1, L2 := it.L2,
    StudyDay := currentDay, type := ScheduleTypeNEW, repetition := rep }

/-- The `due_review_items` list built by the inner loop of
`generate_full_repetition_schedule` (LL lines 528-539): one review entry is
appended for a history item exactly when `any(original_study_day + interval
== current_day for interval in intervals)` holds, so the list is the
filtered history mapped through `mkReviewItem`, in history order.  The
interval list is a parameter here; LL passes the constant
`Config.MACRO_REPETITION_INTERVALS`. -/
def dueReviewItems (intervals : List Int) (history : List MasterItem)
    (currentDay : Int) : List ScheduleItem :=
  (history.filter (fun it => intervals.any (fun k => it.StudyDay + k == currentDay))).map
    mkReviewItem

/-- The `micro_repetition_schedule` list of LL lines 541-551: each master
item whose `StudyDay` equals the current day is expanded into
`MICRO_REPETITIONS_COUNT` entries with `repetition` running 1, 2, 3. -/
def microRepetitionSchedule (master : List MasterItem) (currentDay : Int) :
    List ScheduleItem :=
  (master.filter (fun it => it.StudyDay == currentDay)).flatMap (fun it =>
    (List.range Config.MICRO_REPETITIONS_COUNT).map
      (fun rep => mkNewItem currentDay ((rep : Int) + 1) it))

/-- `schedules[current_day]` as assigned at LL line 553: the due reviews
followed by the micro-repetition entries of the new items. -/
def scheduleForDay (intervals : List Int) (master : List MasterItem)
    (currentDay : Int) : List ScheduleItem :=
  dueReviewItems intervals master currentDay ++ microRepetitionSchedule master currentDay

/-- `generate_full_repetition_schedule` (LL lines 521-555): the dictionary
mapping each day `1 .. max_day` to its schedule, represented as the list of
key/value pairs in insertion order.  The `history` list of LL lines 523-525
is a copy of `master_data`, so `scheduleForDay` receives `master` for both
roles. -/
def generate_full_repetition_schedule (master : List MasterItem) (maxDay : Nat) :
    List (Int × List ScheduleItem) :=
  (List.range maxDay).map (fun i =>
    ((i : Int) + 1,
     scheduleForDay Config.MACRO_REPETITION_INTERVALS master ((i : Int) + 1)))

-- Concrete items used by the examples that appear in the claims.
/-- First example master item, origin day 1. -/
def exItemA : MasterItem := { W2 := "sol", W1 := "sun", L1 := "a1", L2 := "a2", StudyDay := 1 }

/-- Second example master item, origin day 1. -/
def exItemB : MasterItem := { W2 := "vand", W1 := "water", L1 := "b1", L2 := "b2", StudyDay := 1 }

example :
    scheduleForDay [1, 3] [exItemA, exItemB] 2 = [mkReviewItem exItemA, mkReviewItem exItemB] := by
  decide

example : scheduleForDay [1, 3] [exItemA, exItemB] 3 = [] := by decide

example :
    scheduleForDay [1, 3] [exItemA, exItemB] 4 = [mkReviewItem exItemA, mkReviewItem exItemB] := by
  decide

theorem mkReviewItem_inj : Function.Injective mkReviewItem := by
  intro a b h
  cases a; cases b
  simpa [mkReviewItem, ScheduleItem.mk.injEq, MasterItem.mk.injEq] using h

theorem dueCond_iff (intervals : List Int) (D : Int) (it : MasterItem) :
    (intervals.any (fun k => it.StudyDay + k == D)) = true ↔
      ∃ k ∈ intervals, it.StudyDay + k = D := by
  simp [List.any_eq_true]

theorem type_of_mem_micro {master : List MasterItem} {D : Int} {b : ScheduleItem}
    (h : b ∈ microRepetitionSchedule master D) : b.type = ScheduleTypeNEW := by
  simp only [microRepetitionSchedule, List.mem_flatMap, List.mem_map, List.mem_filter] at h
  obtain ⟨it, -, rep, -, rfl⟩ := h
  rfl

theorem count_dueReviewItems (intervals : List Int) (master : List MasterItem)
    (D : Int) (it : MasterItem) :
    (dueReviewItems intervals master D).count (mkReviewItem it) =
      if ∃ k ∈ intervals, it.StudyDay + k = D then master.count it else 0 := by
  unfold dueReviewItems
  rw [List.count_map_of_injective _ _ mkReviewItem_inj]
  by_cases h : ∃ k ∈ intervals, it.StudyDay + k = D
  · rw [if_pos h, List.count_filter]
    exact (dueCond_iff intervals D it).mpr h
  · rw [if_neg h, List.count_eq_zero]
    intro hmem
    exact h ((dueCond_iff intervals D it).mp (List.mem_filter.mp hmem).2)

theorem count_micro_review (master : List MasterItem) (D : Int) (it : MasterItem) :
    (microRepetitionSchedule master D).count (mkReviewItem it) = 0 := by
  rw [List.count_eq_zero]
  intro hmem
  have h := type_of_mem_micro hmem
  simp [mkReviewItem, ScheduleTypeNEW, ScheduleTypeREVIEW] at h

theorem mem_scheduleForDay_review (intervals : List Int) (master : List MasterItem)
    (D : Int) (it : MasterItem) :
    mkReviewItem it ∈ scheduleForDay intervals master D ↔
      it ∈ master ∧ ∃ k ∈ intervals, it.StudyDay + k = D := by
  unfold scheduleForDay
  rw [List.mem_append]
  constructor
  · rintro (h | h)
    · unfold dueReviewItems at h
      rw [List.mem_map] at h
      obtain ⟨a, ha, hEq⟩ := h
      obtain rfl := mkReviewItem_inj hEq
      rw [List.mem_filter] at ha
      exact ⟨ha.1, (dueCond_iff intervals D _).mp ha.2⟩
    · have := type_of_mem_micro h
      simp [mkReviewItem, ScheduleTypeNEW, ScheduleTypeREVIEW] at this
  · rintro ⟨hm, hk⟩
    left
    unfold dueReviewItems
    exact List.mem_map_of_mem _
      (List.mem_filter.mpr ⟨hm, (dueCond_iff intervals D it).mpr hk⟩)

/-- Claim C1: for every master item list, interval set and day `D`, the
schedule produced for day `D` contains a review entry for an item with
origin day `o` iff `o + k = D` for some `k` in the interval set, and the
number of review entries for that item equals its multiplicity in the
master list independently of how many offsets coincide (at most one per
item when the master list has no duplicates); in particular with macro
offsets `{1, 3}` and two items of origin day 1, days 2 and 4 schedule
both items as reviews and day 3 schedules none. -/
theorem claim_C1_review_selection :
    (∀ (intervals : List Int) (master : List MasterItem) (D : Int) (it : MasterItem),
      (mkReviewItem it ∈ scheduleForDay intervals master D ↔
        it ∈ master ∧ ∃ k ∈ intervals, it.StudyDay + k = D)
      ∧ (scheduleForDay intervals master D).count (mkReviewItem it) =
          if ∃ k ∈ intervals, it.StudyDay + k = D then master.count it else 0)
    ∧ scheduleForDay [1, 3] [exItemA, exItemB] 2 =
        [mkReviewItem exItemA, mkReviewItem exItemB]
    ∧ scheduleForDay [1, 3] [exItemA, exItemB] 4 =
        [mkReviewItem exItemA, mkReviewItem exItemB]
    ∧ scheduleForDay [1, 3] [exItemA, exItemB] 3 = [] := by
  refine ⟨fun intervals master D it =>
    ⟨mem_scheduleForDay_review intervals master D it, ?_⟩, by decide, by decide, by decide⟩
  unfold scheduleForDay
  rw [List.count_append, count_dueReviewItems, count_micro_review, Nat.add_zero]

/-!
Micro interleaving: `generate_interleaved_schedule` (RT lines 333-369).
The Python function builds, for the item at 1-based position `p`, the slot
list `indices = [p + use_intervals[0]]` extended by
`indices.append(indices[-1] + use_intervals[i])`, then populates a
dictionary `arrays` mapping each slot to the items appended to it (outer
loop in item order, so a slot's list is in item order, with an item
repeated consecutively if its slot list repeats a slot), and finally
concatenates `arrays[key]` for the keys in ascending order.  The
dictionary is modelled by the function `slotListAt`, its key set by
`sortedKeys` (sorted, deduplicated — dictionary keys are unique).  When
`items` is non-empty, `repetitions ≥ 1` and the interval list is empty,
Python raises `IndexError` on `use_intervals[0]`; that path is modelled
by `Option.none`.
-/

/-- The `use_intervals` slice of RT lines 344-349: all of `intervals` when
`repetitions` exceeds its length, otherwise the first `repetitions`
entries. -/
def useIntervalsOf (repetitions : Int) (intervals : List Int) : List Int :=
  if (intervals.length : Int) < repetitions then intervals
  else intervals.take repetitions.toNat

/-- The `indices` slot list of RT lines 356-358 for 1-based position `p`,
with `use_intervals = s0 :: rest`: running sums starting at `p + s0`. -/
def interleaveIndices (s0 : Int) (rest : List Int) (p : Int) : List Int :=
  List.scanl (· + ·) (p + s0) rest

/-- The `(1-based position, item)` pairs of `enumerate(items, 1)`
(RT line 353). -/
def interleavePairs (items : List ScheduleItem) : List (Nat × ScheduleItem) :=
  items.enumFrom 1

/-- Every slot index written into the `arrays` dictionary (RT lines 360-362). -/
def allSlotIndices (items : List ScheduleItem) (s0 : Int) (rest : List Int) : List Int :=
  (interleavePairs items).flatMap (fun pi => interleaveIndices s0 rest (pi.1 : Int))

/-- `arrays[idx]` (RT lines 360-362): the items appended to slot `idx`, in
outer-loop (item) order, with one copy per occurrence of `idx` in the
item's slot list. -/
def slotListAt (items : List ScheduleItem) (s0 : Int) (rest : List Int)
    (idx : Int) : List ScheduleItem :=
  (interleavePairs items).flatMap (fun pi =>
    List.replicate ((interleaveIndices s0 rest (pi.1 : Int)).count idx) pi.2)

/-- The dictionary keys in the ascending order of `sorted(arrays)`
(RT line 366): the distinct slot indices, sorted ascending. -/
def sortedKeys (items : List ScheduleItem) (s0 : Int) (rest : List Int) : List Int :=
  (allSlotIndices items s0 rest).dedup.insertionSort (· ≤ ·)

/-- `generate_interleaved_schedule` (RT lines 333-369).  Returns `none` on
the `IndexError` path (non-empty input, positive repetitions, empty
interval list), otherwise the concatenation of the slot lists by ascending
slot index. -/
def generate_interleaved_schedule (items : List ScheduleItem) (repetitions : Int)
    (intervals : List Int) : Option (List ScheduleItem) :=
  if items.isEmpty || repetitions ≤ 0 then some []
  else
    match useIntervalsOf repetitions intervals with
    | [] => none
    | s0 :: rest => some ((sortedKeys items s0 rest).flatMap (slotListAt items s0 rest))

/-- A concrete schedule item used for counterexamples. -/
def exSchedItem : ScheduleItem :=
  { W2 := "sol", W1 := "sun", L1 := "a1", L2 := "a2", StudyDay := 1,
    type := ScheduleTypeNEW, repetition := 0 }

/-- Five pairwise distinct schedule items, used by the slot example. -/
def exFiveItems : List ScheduleItem :=
  [{ exSchedItem with W2 := "i1" }, { exSchedItem with W2 := "i2" },
   { exSchedItem with W2 := "i3" }, { exSchedItem with W2 := "i4" },
   { exSchedItem with W2 := "i5" }]

example :
    generate_interleaved_schedule [exSchedItem] 6 Config.MICRO_SPACING_INTERVALS =
      some [exSchedItem, exSchedItem, exSchedItem, exSchedItem, exSchedItem] := by
  decide

theorem sum_map_ite_mem_zero {α : Type} [DecidableEq α] (a : α) (n : ℕ) :
    ∀ (K : List α), a ∉ K → (K.map (fun k => if a = k then n else 0)).sum = 0 := by
  intro K
  induction K with
  | nil => simp
  | cons b K ih =>
      intro h
      rw [List.mem_cons, not_or] at h
      simp only [List.map_cons, List.sum_cons, if_neg h.1, ih h.2]

theorem sum_map_ite_mem_nodup {α : Type} [DecidableEq α] (a : α) (n : ℕ) :
    ∀ (K : List α), K.Nodup → a ∈ K → (K.map (fun k => if a = k then n else 0)).sum = n := by
  intro K
  induction K with
  | nil => simp
  | cons b K ih =>
      intro hN hmem
      rw [List.nodup_cons] at hN
      rcases List.mem_cons.mp hmem with rfl | hmem
      · simp [sum_map_ite_mem_zero a n K hN.1]
      · have hab : a ≠ b := fun h => hN.1 (h ▸ hmem)
        simp only [List.map_cons, List.sum_cons, if_neg hab, ih hN.2 hmem, Nat.zero_add]

theorem sum_map_count_nodup {α : Type} [DecidableEq α] :
    ∀ (l K : List α), K.Nodup → (∀ x ∈ l, x ∈ K) →
      (K.map (fun k => l.count k)).sum = l.length := by
  intro l
  induction l with
  | nil => intro K _ _; simp
  | cons a l ih =>
      intro K hN hsub
      have h1 : (K.map (fun k => (a :: l).count k)).sum =
          (K.map (fun k => l.count k)).sum + (K.map (fun k => if a = k then 1 else 0)).sum := by
        rw [← List.sum_map_add]
        refine congrArg _ (List.map_congr_left fun k _ => ?_)
        rw [List.count_cons]
        congr 1
        simp [beq_iff_eq]
      rw [h1, ih K hN (fun x hx => hsub x (List.mem_cons_of_mem a hx)),
        sum_map_ite_mem_nodup a 1 K hN (hsub a (List.mem_cons_self a l))]
      simp

theorem sum_map_sum_comm {α β : Type} (K : List α) (P : List β) (f : α → β → ℕ) :
    (K.map (fun k => (P.map (f k)).sum)).sum =
      (P.map (fun p => (K.map (fun k => f k p)).sum)).sum := by
  induction K with
  | nil => simp
  | cons k K ih =>
      simp only [List.map_cons, List.sum_cons, ih, ← List.sum_map_add]

theorem sum_map_ite_const {α : Type} (p : α → Bool) (n : ℕ) :
    ∀ (l : List α), (l.map (fun a => if p a then n else 0)).sum = l.countP p * n := by
  intro l
  induction l with
  | nil => simp
  | cons a l ih =>
      simp only [List.map_cons, List.sum_cons, ih, List.countP_cons]
      by_cases h : p a <;> simp [h, Nat.add_mul, Nat.add_comm]

theorem countP_enumFrom_snd (x : ScheduleItem) :
    ∀ (items : List ScheduleItem) (n : ℕ),
      (items.enumFrom n).countP (fun pi => pi.2 == x) = items.count x := by
  intro items
  induction items with
  | nil => intro n; rfl
  | cons a items ih =>
      intro n
      rw [List.enumFrom_cons, List.countP_cons, List.count_cons, ih]

theorem sortedKeys_nodup (items : List ScheduleItem) (s0 : Int) (rest : List Int) :
    (sortedKeys items s0 rest).Nodup :=
  (List.perm_insertionSort _ _).symm.nodup (List.nodup_dedup _)

theorem mem_sortedKeys {items : List ScheduleItem} {s0 : Int} {rest : List Int} {idx : Int} :
    idx ∈ sortedKeys items s0 rest ↔ idx ∈ allSlotIndices items s0 rest := by
  unfold sortedKeys
  rw [(List.perm_insertionSort _ _).mem_iff, List.mem_dedup]

theorem length_interleaveIndices (s0 : Int) (rest : List Int) (p : Int) :
    (interleaveIndices s0 rest p).length = rest.length + 1 :=
  List.length_scanl _ _

theorem count_interleaveFlatten (items : List ScheduleItem) (s0 : Int) (rest : List Int)
    (x : ScheduleItem) :
    ((sortedKeys items s0 rest).flatMap (slotListAt items s0 rest)).count x =
      items.count x * (rest.length + 1) := by
  rw [List.count_flatMap]
  have h1 : ∀ k ∈ sortedKeys items s0 rest, (List.count x ∘ slotListAt items s0 rest) k =
      ((interleavePairs items).map (fun pi =>
        if pi.2 == x then (interleaveIndices s0 rest (pi.1 : Int)).count k else 0)).sum := by
    intro k _
    simp only [Function.comp_apply, slotListAt, List.count_flatMap]
    refine congrArg _ (List.map_congr_left fun pi _ => ?_)
    simp only [Function.comp_apply, List.count_replicate]
  rw [List.map_congr_left h1, sum_map_sum_comm]
  have h2 : ∀ pi ∈ interleavePairs items,
      ((sortedKeys items s0 rest).map (fun k =>
        if pi.2 == x then (interleaveIndices s0 rest (pi.1 : Int)).count k else 0)).sum =
      if pi.2 == x then rest.length + 1 else 0 := by
    intro pi hpi
    by_cases hx : pi.2 == x
    · rw [if_pos hx, List.map_congr_left (fun k _ => if_pos hx), ←
        length_interleaveIndices s0 rest (pi.1 : Int)]
      refine sum_map_count_nodup _ _ (sortedKeys_nodup items s0 rest) fun v hv => ?_
      exact mem_sortedKeys.mpr (List.mem_flatMap.mpr ⟨pi, hpi, hv⟩)
    · rw [if_neg hx, List.map_congr_left (fun k _ => if_neg hx)]
      simp
  rw [List.map_congr_left h2]
  rw [show (List.map (fun pi : ℕ × ScheduleItem => if (pi.2 == x) = true then rest.length + 1 else 0)
      (interleavePairs items)).sum =
      (interleavePairs items).countP (fun pi => pi.2 == x) * (rest.length + 1) from
    sum_map_ite_const _ _ _]
  unfold interleavePairs
  rw [countP_enumFrom_snd]

theorem length_useIntervalsOf (repetitions : Int) (intervals : List Int) :
    (useIntervalsOf repetitions intervals).length =
      min repetitions.toNat intervals.length := by
  unfold useIntervalsOf
  split
  · next h => omega
  · next h => rw [List.length_take]

/-- Claim C2, counterexample: with the configured micro spacing interval
set (5 entries) and repetition count `R = 6`, the single input item occurs
5 times in the output, not `R = 6` times, because the code falls back to
using all intervals when `R` exceeds the set length (RT lines 344-349). -/
theorem claim_C2_counterexample :
    generate_interleaved_schedule [exSchedItem] 6 Config.MICRO_SPACING_INTERVALS =
      some (List.replicate 5 exSchedItem)
    ∧ (List.replicate 5 exSchedItem).count exSchedItem ≠ 6 := by
  decide

/-- Claim C2 (amended): for every item list, repetition count `R ≥ 1` and
non-empty interval list, micro-interleaving succeeds and every item occurs
exactly `min R |intervals|` times in the output — i.e. exactly `R` times
when `R` does not exceed the interval-set length, and `|intervals|` times
otherwise. -/
theorem claim_C2_each_item_min_times :
    ∀ (items : List ScheduleItem) (repetitions : Int) (intervals : List Int)
      (x : ScheduleItem), 1 ≤ repetitions → intervals ≠ [] →
      (generate_interleaved_schedule items repetitions intervals).isSome = true
      ∧ ∀ out, generate_interleaved_schedule items repetitions intervals = some out →
          out.count x = items.count x * min repetitions.toNat intervals.length := by
  intro items reps intervals x h1 h2
  by_cases hemp : items.isEmpty
  · have hnil : items = [] := List.isEmpty_iff.mp hemp
    have hg : generate_interleaved_schedule items reps intervals = some [] := by
      simp [generate_interleaved_schedule, hemp]
    refine ⟨by rw [hg]; rfl, fun out hout => ?_⟩
    rw [hg] at hout
    injection hout with hout
    subst hout
    simp [hnil]
  · have hlen : (useIntervalsOf reps intervals).length =
        min reps.toNat intervals.length := length_useIntervalsOf reps intervals
    have hpos : 0 < (useIntervalsOf reps intervals).length := by
      rw [hlen]
      have : 0 < intervals.length := List.length_pos.mpr h2
      omega
    obtain ⟨s0, rest, hu⟩ : ∃ s0 rest, useIntervalsOf reps intervals = s0 :: rest := by
      cases hcase : useIntervalsOf reps intervals with
      | nil => rw [hcase] at hpos; simp at hpos
      | cons a l => exact ⟨a, l, rfl⟩
    have hg : generate_interleaved_schedule items reps intervals =
        some ((sortedKeys items s0 rest).flatMap (slotListAt items s0 rest)) := by
      unfold generate_interleaved_schedule
      rw [if_neg (by simp [hemp]; omega), hu]
    refine ⟨by rw [hg]; rfl, fun out hout => ?_⟩
    rw [hg] at hout
    injection hout with hout
    subst hout
    rw [count_interleaveFlatten]
    have hlen2 : rest.length + 1 = min reps.toNat intervals.length := by
      rw [← hlen, hu]; rfl
    rw [hlen2]

/-- Witness for the amended claim C2 theorem: one item, `R = 2`, the
configured interval set; the item occurs `min 2 5 = 2` times. -/
theorem claim_C2_witness :
    ([exSchedItem, exSchedItem] : List ScheduleItem).count exSchedItem =
      [exSchedItem].count exSchedItem *
        min (2 : Int).toNat Config.MICRO_SPACING_INTERVALS.length :=
  (claim_C2_each_item_min_times [exSchedItem] 2 Config.MICRO_SPACING_INTERVALS exSchedItem
    (by decide) (by decide)).2 [exSchedItem, exSchedItem] (by decide)

theorem scanl_add_eq_map_range (rest : List Int) (acc : Int) :
    List.scanl (· + ·) acc rest =
      (List.range (rest.length + 1)).map (fun j => acc + (rest.take j).sum) := by
  induction rest generalizing acc with
  | nil => simp
  | cons r rest ih =>
      rw [List.scanl_cons, ih (acc + r), List.length_cons]
      conv_rhs => rw [List.range_succ_eq_map, List.map_cons, List.map_map]
      rw [List.singleton_append]
      refine congrArg₂ List.cons (by simp) (List.map_congr_left fun j _ => ?_)
      simp [Function.comp_def, List.take_succ_cons, add_assoc]

/-- Claim C9: micro-interleaving places the item at 1-based position `p`
into the slots `p + s0`, `(p + s0) + s1`, … (the running sums of the used
spacing offsets), flattens slots in ascending order with original relative
order inside a slot; with 5 items, `R = 2` and the configured micro
offsets (whose first two entries are 0 and 3), the item at position 1
occupies slots 1 and 4, the item at position 5 occupies slots 5 and 8,
and the flattened output (shown explicitly) has length 10. -/
theorem claim_C9_slot_placement :
    (∀ (s0 : Int) (rest : List Int) (p : Int),
      interleaveIndices s0 rest p =
        (List.range (rest.length + 1)).map (fun j => p + ((s0 :: rest).take (j + 1)).sum))
    ∧ useIntervalsOf 2 Config.MICRO_SPACING_INTERVALS = [0, 3]
    ∧ interleaveIndices 0 [3] 1 = [1, 4]
    ∧ interleaveIndices 0 [3] 5 = [5, 8]
    ∧ generate_interleaved_schedule exFiveItems 2 Config.MICRO_SPACING_INTERVALS =
        some [{ exSchedItem with W2 := "i1" }, { exSchedItem with W2 := "i2" },
              { exSchedItem with W2 := "i3" }, { exSchedItem with W2 := "i1" },
              { exSchedItem with W2 := "i4" }, { exSchedItem with W2 := "i2" },
              { exSchedItem with W2 := "i5" }, { exSchedItem with W2 := "i3" },
              { exSchedItem with W2 := "i4" }, { exSchedItem with W2 := "i5" }]
    ∧ (generate_interleaved_schedule exFiveItems 2 Config.MICRO_SPACING_INTERVALS).map
        List.length = some 10 := by
  refine ⟨fun s0 rest p => ?_, by decide, by decide, by decide, by decide, by decide⟩
  unfold interleaveIndices
  rw [scanl_add_eq_map_range]
  refine List.map_congr_left fun j _ => ?_
  rw [List.take_succ_cons, List.sum_cons, add_assoc]

/-!
Filesystem model for the orchestrator (LL `is_day_complete` lines 480-494,
`process_day` lines 580-635, `main_workflow` lines 638-674).  A state
records, for each day number, whether the directory `Days/day_{d}` exists
and, for each file name inside it, `none` (absent) or `some c` where `c`
is an abstract content token (`0` is used for the zero-byte files produced
by mock-mode `touch`).  Only the day directories are modelled; the TTS
cache directory is modelled separately for the cache claims.
-/

/-- On-disk state of the `Days` output tree. -/
structure DaysFS where
  dirExists : Nat → Bool
  file : Nat → String → Option Nat

/-- `day_path.mkdir(parents=True, exist_ok=True)` (LL line 582). -/
def DaysFS.mkdirDay (fs : DaysFS) (d : Nat) : DaysFS :=
  { fs with dirExists := fun e => if e = d then true else fs.dirExists e }

/-- Creating or overwriting `Days/day_{d}/{name}` with content token `c`. -/
def DaysFS.writeFile (fs : DaysFS) (d : Nat) (name : String) (c : Nat) : DaysFS :=
  { fs with file := fun e n => if e = d ∧ n = name then some c else fs.file e n }

/-- Deleting `Days/day_{d}/{name}` (as in test scenario 3 of
`src/run_tests.py` and `src/test_language_learner.py`). -/
def DaysFS.deleteFile (fs : DaysFS) (d : Nat) (name : String) : DaysFS :=
  { fs with file := fun e n => if e = d ∧ n = name then none else fs.file e n }

/-- The `required_files` list of LL line 488:
`list(Config.AUDIO_FILE_MAP.values()) + [REVIEW_MANIFEST_NAME,
WORKOUT_MANIFEST_NAME]` in dictionary insertion order. -/
def requiredFiles : List String :=
  ["workout.mp3", "review_forward.mp3", "review_reverse.mp3",
   "review_manifest.csv", "workout_manifest.csv"]

/-- `is_day_complete` (LL lines 480-494): the day directory exists and
every required file name exists inside it; only existence is consulted. -/
def is_day_complete (fs : DaysFS) (d : Nat) : Bool :=
  fs.dirExists d && requiredFiles.all (fun n => (fs.file d n).isSome)

/-- Which of the five file-producing steps of `process_day` succeed.  A
failing manifest write is swallowed (`write_manifest_csv`, LL lines
557-577, catches every exception and returns `False`, and `process_day`
ignores the return value), whereas an `OSError` from the mock-mode
`output_path.touch` (LL line 355, not inside any `try`) propagates out of
`process_day` and `main_workflow` uninstalled, aborting the run. -/
structure DayStepFaults where
  reviewManifest : Bool
  workoutManifest : Bool
  workoutAudio : Bool
  reviewFwdAudio : Bool
  reviewRevAudio : Bool
deriving DecidableEq, Repr

/-- The all-steps-succeed fault vector. -/
def noFaults : DayStepFaults :=
  { reviewManifest := true, workoutManifest := true, workoutAudio := true,
    reviewFwdAudio := true, reviewRevAudio := true }

/-- `process_day` (LL lines 580-635) in mock mode, restricted to its
effects on the `Days` tree and instrumented with a fault vector: the day
directory is created, the two manifests are written (a failure is
swallowed and leaves no file), then each of the three audio files is
created by `touch`; a failing `touch` raises, which surfaces as
`Except.error` carrying the state reached at that point (nothing is ever
deleted).  `c` is the content token for this run's writes. -/
def maybeWrite (b : Bool) (fs : DaysFS) (d : Nat) (n : String) (c : Nat) : DaysFS :=
  if b then fs.writeFile d n c else fs

/-- State after the mkdir and the two (possibly swallowed-failure)
manifest writes. -/
def pdStage2 (d c : Nat) (f : DayStepFaults) (fs0 : DaysFS) : DaysFS :=
  maybeWrite f.workoutManifest
    (maybeWrite f.reviewManifest (fs0.mkdirDay d) d "review_manifest.csv" c)
    d "workout_manifest.csv" c

/-- State after the `workout.mp3` touch succeeded. -/
def pdStage3 (d c : Nat) (f : DayStepFaults) (fs0 : DaysFS) : DaysFS :=
  (pdStage2 d c f fs0).writeFile d "workout.mp3" c

/-- State after the `review_forward.mp3` touch succeeded. -/
def pdStage4 (d c : Nat) (f : DayStepFaults) (fs0 : DaysFS) : DaysFS :=
  (pdStage3 d c f fs0).writeFile d "review_forward.mp3" c

def process_day (d c : Nat) (f : DayStepFaults) (fs0 : DaysFS) : Except DaysFS DaysFS :=
  if !f.workoutAudio then .error (pdStage2 d c f fs0)
  else if !f.reviewFwdAudio then .error (pdStage3 d c f fs0)
  else if !f.reviewRevAudio then .error (pdStage4 d c f fs0)
  else .ok ((pdStage4 d c f fs0).writeFile d "review_reverse.mp3" c)

/-- The fault-free run of `process_day`. -/
def process_day_ok (d c : Nat) (fs0 : DaysFS) : DaysFS :=
  ((((fs0.mkdirDay d).writeFile d "review_manifest.csv" c).writeFile
      d "workout_manifest.csv" c).writeFile d "workout.mp3" c
    |>.writeFile d "review_forward.mp3" c).writeFile d "review_reverse.mp3" c

theorem process_day_noFaults (d c : Nat) (fs0 : DaysFS) :
    process_day d c noFaults fs0 = .ok (process_day_ok d c fs0) := rfl

/-- `days_to_process` on a non-initial run (LL line 659): the days in
`range(1, max_day + 1)` that are not complete. -/
def daysToProcess (fs : DaysFS) (maxDay : Nat) : List Nat :=
  (List.range' 1 maxDay).filter (fun d => !is_day_complete fs d)

/-- The non-initial-run `main_workflow` day loop (LL lines 659-674) with
no injected faults: each not-yet-complete day is processed in order. -/
def main_workflow (fs : DaysFS) (maxDay c : Nat) : DaysFS :=
  (daysToProcess fs maxDay).foldl (fun s d => process_day_ok d c s) fs

/-- `fs1` was obtained from `fs0` by creating the directory for day `d`
and writing files inside it only: other days are untouched, no file of day
`d` was deleted, and the day directory exists. -/
def OnlyAddsToDay (d : Nat) (fs0 fs1 : DaysFS) : Prop :=
  (∀ (e : Nat) (n : String), e ≠ d → fs1.file e n = fs0.file e n)
  ∧ (∀ n : String, (fs0.file d n).isSome = true → (fs1.file d n).isSome = true)
  ∧ fs1.dirExists d = true

theorem onlyAdds_mkdir (d : Nat) (fs0 : DaysFS) :
    OnlyAddsToDay d fs0 (fs0.mkdirDay d) := by
  refine ⟨fun e n _ => rfl, fun n h => h, ?_⟩
  simp [DaysFS.mkdirDay]

theorem onlyAdds_write {d : Nat} {fs0 fs1 : DaysFS} (h : OnlyAddsToDay d fs0 fs1)
    (name : String) (c : Nat) : OnlyAddsToDay d fs0 (fs1.writeFile d name c) := by
  obtain ⟨h1, h2, h3⟩ := h
  refine ⟨fun e n he => ?_, fun n hn => ?_, h3⟩
  · simp only [DaysFS.writeFile]
    rw [if_neg (fun hc => he hc.1)]
    exact h1 e n he
  · simp only [DaysFS.writeFile]
    by_cases hn2 : n = name
    · simp [hn2]
    · simpa [hn2] using h2 n hn

theorem onlyAdds_maybeWrite {d : Nat} {fs0 fs1 : DaysFS} (h : OnlyAddsToDay d fs0 fs1)
    (b : Bool) (name : String) (c : Nat) :
    OnlyAddsToDay d fs0 (maybeWrite b fs1 d name c) := by
  unfold maybeWrite
  by_cases hb : b
  · simpa [hb] using onlyAdds_write h name c
  · simpa [hb] using h

theorem onlyAdds_pdStage2 (d c : Nat) (f : DayStepFaults) (fs0 : DaysFS) :
    OnlyAddsToDay d fs0 (pdStage2 d c f fs0) :=
  onlyAdds_maybeWrite (onlyAdds_maybeWrite (onlyAdds_mkdir d fs0) _ _ c) _ _ c

theorem onlyAdds_pdStage3 (d c : Nat) (f : DayStepFaults) (fs0 : DaysFS) :
    OnlyAddsToDay d fs0 (pdStage3 d c f fs0) :=
  onlyAdds_write (onlyAdds_pdStage2 d c f fs0) _ c

theorem onlyAdds_pdStage4 (d c : Nat) (f : DayStepFaults) (fs0 : DaysFS) :
    OnlyAddsToDay d fs0 (pdStage4 d c f fs0) :=
  onlyAdds_write (onlyAdds_pdStage3 d c f fs0) _ c

/-- Claim C3, counterexample setup: an empty output tree. -/
def exEmptyFS : DaysFS := { dirExists := fun _ => false, file := fun _ _ => none }

/-- Claim C3, counterexample setup: building day 1 with a fatal `OSError`
injected at the mock-mode `touch` of `workout.mp3` (LL line 355). -/
def exFailedRun : Except DaysFS DaysFS :=
  process_day 1 7 { noFaults with workoutAudio := false } exEmptyFS

/-- The filesystem state carried by a run result (the state at the
uncaught exception for `.error`, the final state for `.ok`). -/
def exceptState : Except DaysFS DaysFS → DaysFS
  | .error s => s
  | .ok s => s

/-- Whether a run result is an uncaught fatal error. -/
def isErrorRun : Except DaysFS DaysFS → Bool
  | .error _ => true
  | .ok _ => false

/-- Claim C3, counterexample: a fatal error while touching `workout.mp3`
for day 1 aborts the run, yet the two manifests written beforehand and the
day directory are still on disk afterwards — the day 1 output directory
has not been deleted, so a completed (crashed) run does leave a state in
which some but not all of day 1's files exist. -/
theorem claim_C3_counterexample :
    isErrorRun exFailedRun = true
    ∧ ((exceptState exFailedRun).file 1 "review_manifest.csv").isSome = true
    ∧ ((exceptState exFailedRun).file 1 "workout_manifest.csv").isSome = true
    ∧ (exceptState exFailedRun).dirExists 1 = true
    ∧ ((exceptState exFailedRun).file 1 "workout.mp3").isSome = false
    ∧ is_day_complete (exceptState exFailedRun) 1 = false := by
  refine ⟨rfl, by decide, by decide, by decide, by decide, by decide⟩

/-- Claim C3 (amended): if a step of building day `D` raises a fatal
error, the run aborts with no rollback whatsoever: the state at the error
still contains every file that existed before the run plus everything
written before the failing step, the day directory for `D` exists, and
other days are untouched — nothing is deleted, so partial output for `D`
remains on disk (it is picked up again by a later run only because the
existence check finds a required file missing). -/
theorem claim_C3_no_rollback_on_error :
    ∀ (d c : Nat) (f : DayStepFaults) (fs0 fsE : DaysFS),
      process_day d c f fs0 = .error fsE → OnlyAddsToDay d fs0 fsE := by
  intro d c f fs0 fsE hE
  unfold process_day at hE
  split at hE
  · exact (Except.error.injEq _ _).mp hE ▸ onlyAdds_pdStage2 d c f fs0
  · split at hE
    · exact (Except.error.injEq _ _).mp hE ▸ onlyAdds_pdStage3 d c f fs0
    · split at hE
      · exact (Except.error.injEq _ _).mp hE ▸ onlyAdds_pdStage4 d c f fs0
      · cases hE

/-- Witness for the amended claim C3 theorem at the concrete failed run. -/
theorem claim_C3_no_rollback_witness :
    OnlyAddsToDay 1 exEmptyFS (exceptState exFailedRun) :=
  claim_C3_no_rollback_on_error 1 7 { noFaults with workoutAudio := false } exEmptyFS
    (exceptState exFailedRun) rfl

theorem process_day_ok_file_other {d c e : Nat} {fs : DaysFS} (h : e ≠ d) (n : String) :
    (process_day_ok d c fs).file e n = fs.file e n := by
  simp [process_day_ok, DaysFS.writeFile, DaysFS.mkdirDay, fun hc => h hc]

theorem process_day_ok_dir_other {d c e : Nat} {fs : DaysFS} (h : e ≠ d) :
    (process_day_ok d c fs).dirExists e = fs.dirExists e := by
  simp [process_day_ok, DaysFS.writeFile, DaysFS.mkdirDay, h]

theorem foldl_process_frame {c e : Nat} :
    ∀ (ds : List Nat) (fs : DaysFS), e ∉ ds →
      (∀ n, ((ds.foldl (fun s d => process_day_ok d c s) fs).file e n = fs.file e n))
      ∧ (ds.foldl (fun s d => process_day_ok d c s) fs).dirExists e = fs.dirExists e := by
  intro ds
  induction ds with
  | nil => exact fun fs _ => ⟨fun n => rfl, rfl⟩
  | cons d ds ih =>
      intro fs h
      rw [List.mem_cons, not_or] at h
      rw [List.foldl_cons]
      refine ⟨fun n => ?_, ?_⟩
      · rw [(ih _ h.2).1 n, process_day_ok_file_other h.1 n]
      · rw [(ih _ h.2).2, process_day_ok_dir_other h.1]

theorem deleteFile_other {fs : DaysFS} {k e : Nat} {name n : String} (h : e ≠ k) :
    ((fs.deleteFile k name).file e n) = fs.file e n := by
  simp only [DaysFS.deleteFile]
  rw [if_neg (fun hc => h hc.1)]

theorem all_congr_list {α : Type} {l : List α} {p q : α → Bool}
    (h : ∀ a ∈ l, p a = q a) : l.all p = l.all q := by
  induction l with
  | nil => rfl
  | cons a l ih =>
      rw [List.all_cons, List.all_cons, h a (List.mem_cons_self a l),
        ih fun b hb => h b (List.mem_cons_of_mem a hb)]

theorem is_day_complete_deleteFile_other {fs : DaysFS} {k e : Nat} {name : String}
    (h : e ≠ k) : is_day_complete (fs.deleteFile k name) e = is_day_complete fs e := by
  unfold is_day_complete
  have hd : (fs.deleteFile k name).dirExists e = fs.dirExists e := rfl
  rw [hd]
  congr 1
  refine all_congr_list fun n _ => ?_
  rw [deleteFile_other h]

theorem filter_eq_singleton_of_unique {l : List Nat} {p : Nat → Bool} {k : Nat}
    (hN : l.Nodup) (hk : k ∈ l) (hp : ∀ d ∈ l, p d = true ↔ d = k) :
    l.filter p = [k] := by
  induction l with
  | nil => cases hk
  | cons a l ih =>
      rw [List.nodup_cons] at hN
      rcases List.mem_cons.mp hk with rfl | hk2
      · rw [List.filter_cons_of_pos ((hp _ (List.mem_cons_self _ _)).mpr rfl)]
        have : l.filter p = [] := by
          rw [List.filter_eq_nil_iff]
          intro d hd
          intro hpd
          have := (hp d (List.mem_cons_of_mem _ hd)).mp hpd
          exact hN.1 (this ▸ hd)
        rw [this]
      · have hak : a ≠ k := fun h => hN.1 (h ▸ hk2)
        rw [List.filter_cons_of_neg (by
          intro hpa
          exact hak ((hp a (List.mem_cons_self a l)).mp hpa))]
        exact ih hN.2 hk2 (fun d hd => hp d (List.mem_cons_of_mem a hd))

/-- Claim C4: on a non-initial run the orchestrator processes exactly the
days in `1 .. max_day` whose required-file set is incomplete on disk; the
files and directory of every complete day are left unchanged by the run;
and deleting exactly one required file of a day, in a state where all days
in range are complete, makes the next run process exactly that day. -/
theorem claim_C4_rebuild_exactly_incomplete :
    (∀ (fs : DaysFS) (maxDay d : Nat),
      d ∈ daysToProcess fs maxDay ↔
        d ∈ List.range' 1 maxDay ∧ is_day_complete fs d = false)
    ∧ (∀ (fs : DaysFS) (maxDay c d : Nat), is_day_complete fs d = true →
        (∀ n, (main_workflow fs maxDay c).file d n = fs.file d n)
        ∧ (main_workflow fs maxDay c).dirExists d = fs.dirExists d)
    ∧ (∀ (fs : DaysFS) (maxDay k : Nat) (n : String),
        (∀ d ∈ List.range' 1 maxDay, is_day_complete fs d = true) →
        k ∈ List.range' 1 maxDay → n ∈ requiredFiles →
        daysToProcess (fs.deleteFile k n) maxDay = [k]) := by
  refine ⟨?_, ?_, ?_⟩
  · intro fs maxDay d
    simp [daysToProcess, List.mem_filter]
  · intro fs maxDay c d hcomp
    have hnot : d ∉ daysToProcess fs maxDay := by
      simp [daysToProcess, List.mem_filter, hcomp]
    exact foldl_process_frame _ fs hnot
  · intro fs maxDay k n hall hk hn
    unfold daysToProcess
    refine filter_eq_singleton_of_unique (List.nodup_range' 1 maxDay) hk ?_
    intro d hd
    by_cases hdk : d = k
    · subst hdk
      have hdel : (fs.deleteFile d n).file d n = none := by
        simp [DaysFS.deleteFile]
      have hfail : is_day_complete (fs.deleteFile d n) d = false := by
        unfold is_day_complete
        have : (requiredFiles.all fun m => ((fs.deleteFile d n).file d m).isSome) = false := by
          rw [List.all_eq_false]
          exact ⟨n, hn, by simp [hdel]⟩
        simp [this]
      simp [hfail]
    · simp [is_day_complete_deleteFile_other hdk, hall d hd, hdk]

/-- A fully complete concrete state: every day directory exists and every
required file is present with content token 0 (a zero-byte file). -/
def exFullFS : DaysFS :=
  { dirExists := fun _ => true,
    file := fun _ n => if requiredFiles.contains n then some 0 else none }

/-- Witness for claim C4 at a concrete state: with days 1..3 complete,
deleting `workout.mp3` of day 2 makes the next run process exactly day 2. -/
theorem claim_C4_witness :
    daysToProcess (exFullFS.deleteFile 2 "workout.mp3") 3 = [2] :=
  claim_C4_rebuild_exactly_incomplete.2.2 exFullFS 3 2 "workout.mp3"
    (by decide) (by decide) (by decide)

/-- Claim C10: the day-completeness check depends only on the existence of
the day directory and of the required file names, never on contents or
sizes; consequently a day whose required files all exist as zero-byte
files (content token 0, as produced by mock-mode `touch` or a silent
export failure) is reported complete, is not selected for processing, and
its files are never touched by later runs. -/
theorem claim_C10_existence_only_completeness :
    (∀ (fs1 fs2 : DaysFS) (d : Nat),
      fs1.dirExists d = fs2.dirExists d →
      (∀ n, (fs1.file d n).isSome = (fs2.file d n).isSome) →
      is_day_complete fs1 d = is_day_complete fs2 d)
    ∧ (∀ (fs : DaysFS) (maxDay c d : Nat),
        fs.dirExists d = true →
        (∀ n ∈ requiredFiles, fs.file d n = some 0) →
        is_day_complete fs d = true
        ∧ d ∉ daysToProcess fs maxDay
        ∧ (∀ n, (main_workflow fs maxDay c).file d n = fs.file d n)) := by
  constructor
  · intro fs1 fs2 d h1 h2
    unfold is_day_complete
    rw [h1]
    congr 1
    exact all_congr_list fun n _ => by rw [h2 n]
  · intro fs maxDay c d hdir hfiles
    have hcomp : is_day_complete fs d = true := by
      unfold is_day_complete
      rw [hdir, Bool.true_and, List.all_eq_true]
      intro n hnn
      rw [hfiles n hnn]
      rfl
    have hnot : d ∉ daysToProcess fs maxDay := by
      simp [daysToProcess, List.mem_filter, hcomp]
    exact ⟨hcomp, hnot, (foldl_process_frame _ fs hnot).1⟩

/-- Witness for claim C10 at the concrete all-zero-byte state. -/
theorem claim_C10_witness :
    is_day_complete exFullFS 1 = true ∧ 1 ∉ daysToProcess exFullFS 3 :=
  ⟨(claim_C10_existence_only_completeness.2 exFullFS 3 5 1 rfl (by decide)).1,
   (claim_C10_existence_only_completeness.2 exFullFS 3 5 1 rfl (by decide)).2.1⟩

/-!
TTS cache model (RT lines 292-326 and 372-394).  `get_cache_path` keys a
cache file by `sha256(text + language_code)`; the hash is modelled by the
pair `(text, language_code)` itself (assumed collision-free, which is how
the code relies on it).  A cache file is either a real synthesized payload
(`.audio v`, the bytes saved by `tts.save`) or the zero-byte file produced
by `touch` on a synthesis failure (`.empty`).  The external gTTS call is a
parameter `synth` returning `Except Unit Nat` (`.error` models a raised
exception).
-/

/-- Contents of one persisted cache file. -/
inductive FileData where
  | empty : FileData
  | audio : Nat → FileData
deriving DecidableEq, Repr

/-- The persisted cache directory: an association list from cache key
(text, language code) to file contents. -/
def CacheDisk := List ((String × String) × FileData)

/-- Look up the persisted entry for a key. -/
def CacheDisk.lookup (disk : CacheDisk) (key : String × String) : Option FileData :=
  match disk with
  | [] => none
  | (k, v) :: rest => if k = key then some v else CacheDisk.lookup rest key

/-- `real_gtts_api` (RT lines 312-326): if the cache file exists it is
returned as a hit (`cache_hits += 1`, no API call) regardless of its
contents; otherwise `api_calls += 1` and gTTS is invoked — on success the
payload is saved to the cache file and returned, on an exception a
zero-byte file is created (`touch`) and returned.  Result:
(returned file contents, new disk, cache_hits, api_calls). -/
def real_gtts_api (synth : String → String → Except Unit Nat)
    (text language_code : String) (disk : CacheDisk) (hits calls : Nat) :
    FileData × CacheDisk × Nat × Nat :=
  match disk.lookup (text, language_code) with
  | some payload => (payload, disk, hits + 1, calls)
  | none =>
    match synth text language_code with
    | .ok v => (.audio v, ((text, language_code), FileData.audio v) :: disk, hits, calls + 1)
    | .error _ => (.empty, ((text, language_code), FileData.empty) :: disk, hits, calls + 1)

/-- `get_segment_lang_code` (RT lines 296-298) with the RT `Config`
language maps (lines 180-190). -/
def get_segment_lang_code (segment_key : String) : String :=
  if segment_key = "W2" then "da"
  else if segment_key = "L2" then "da"
  else "en-GB"

/-- `item.get(key)` for the four content keys. -/
def contentOf (it : ScheduleItem) (key : String) : String :=
  if key = "W2" then it.W2
  else if key = "W1" then it.W1
  else if key = "L1" then it.L1
  else if key = "L2" then it.L2
  else ""

/-- The (text, language) pairs visited by the nested loops of
`pre_cache_day_segments` (RT lines 380-392), in visit order. -/
def segmentPairs (schedule : List ScheduleItem) : List (String × String) :=
  schedule.flatMap (fun it =>
    Config.CONTENT_KEYS.map (fun k => (contentOf it k, get_segment_lang_code k)))

/-- The loop body chain of `pre_cache_day_segments` (RT lines 380-392):
for each visited pair, if the text is non-empty and the pair is not yet in
`unique_segments`, call the TTS function and add the pair to the set.
State: (unique_segments, disk, cache_hits, api_calls). -/
def pre_cache_loop (synth : String → String → Except Unit Nat) :
    List (String × String) → List (String × String) → CacheDisk → Nat → Nat →
    CacheDisk × Nat × Nat
  | [], _, disk, hits, calls => (disk, hits, calls)
  | (text, lang) :: rest, uniq, disk, hits, calls =>
    if text ≠ "" ∧ (text, lang) ∉ uniq then
      let r := real_gtts_api synth text lang disk hits calls
      pre_cache_loop synth rest ((text, lang) :: uniq) r.2.1 r.2.2.1 r.2.2.2
    else
      pre_cache_loop synth rest uniq disk hits calls

/-- `pre_cache_day_segments` (RT lines 372-394) in real-TTS mode: runs the
loop over all visited pairs with a fresh `unique_segments` set and zeroed
counters.  Returns (disk, cache_hits, api_calls). -/
def pre_cache_day_segments (synth : String → String → Except Unit Nat)
    (schedule : List ScheduleItem) (disk : CacheDisk) : CacheDisk × Nat × Nat :=
  pre_cache_loop synth (segmentPairs schedule) [] disk 0 0

theorem real_gtts_api_mono (synth : String → String → Except Unit Nat)
    (text lang : String) (disk : CacheDisk) (hits calls : Nat)
    (key : String × String) (h : disk.lookup key ≠ none) :
    ((real_gtts_api synth text lang disk hits calls).2.1).lookup key ≠ none := by
  unfold real_gtts_api
  cases hl : disk.lookup (text, lang) with
  | some payload => exact h
  | none =>
      cases synth text lang with
      | ok v =>
          simp only [CacheDisk.lookup]
          split
          · exact fun hc => Option.noConfusion hc
          · exact h
      | error e =>
          simp only [CacheDisk.lookup]
          split
          · exact fun hc => Option.noConfusion hc
          · exact h

theorem real_gtts_api_persists (synth : String → String → Except Unit Nat)
    (text lang : String) (disk : CacheDisk) (hits calls : Nat) :
    ((real_gtts_api synth text lang disk hits calls).2.1).lookup (text, lang) ≠ none := by
  unfold real_gtts_api
  cases hl : disk.lookup (text, lang) with
  | some payload => simp [hl]
  | none =>
      cases synth text lang with
      | ok v => simp [CacheDisk.lookup]
      | error e => simp [CacheDisk.lookup]

theorem pre_cache_loop_mono (synth : String → String → Except Unit Nat) :
    ∀ (pairs uniq : List (String × String)) (disk : CacheDisk) (hits calls : Nat)
      (key : String × String), disk.lookup key ≠ none →
      ((pre_cache_loop synth pairs uniq disk hits calls).1).lookup key ≠ none := by
  intro pairs
  induction pairs with
  | nil => intro uniq disk hits calls key h; exact h
  | cons p rest ih =>
      intro uniq disk hits calls key h
      obtain ⟨text, lang⟩ := p
      rw [pre_cache_loop]
      split
      · exact ih _ _ _ _ key (real_gtts_api_mono synth text lang disk hits calls key h)
      · exact ih _ _ _ _ key h

theorem pre_cache_loop_covers (synth : String → String → Except Unit Nat) :
    ∀ (pairs uniq : List (String × String)) (disk : CacheDisk) (hits calls : Nat),
      (∀ q ∈ uniq, disk.lookup q ≠ none) →
      ∀ q ∈ pairs, q.1 ≠ "" →
        ((pre_cache_loop synth pairs uniq disk hits calls).1).lookup q ≠ none := by
  intro pairs
  induction pairs with
  | nil => intro uniq disk hits calls _ q hq; cases hq
  | cons p rest ih =>
      intro uniq disk hits calls hinv q hq hne
      obtain ⟨text, lang⟩ := p
      rw [pre_cache_loop]
      by_cases hcond : text ≠ "" ∧ (text, lang) ∉ uniq
      · rw [if_pos hcond]
        have hinv2 : ∀ r ∈ ((text, lang) :: uniq),
            ((real_gtts_api synth text lang disk hits calls).2.1).lookup r ≠ none := by
          intro r hr
          rcases List.mem_cons.mp hr with rfl | hr2
          · exact real_gtts_api_persists synth text lang disk hits calls
          · exact real_gtts_api_mono synth text lang disk hits calls r (hinv r hr2)
        rcases List.mem_cons.mp hq with rfl | hq2
        · exact pre_cache_loop_mono synth _ _ _ _ _ _
            (hinv2 _ (List.mem_cons_self _ _))
        · exact ih _ _ _ _ hinv2 q hq2 hne
      · rw [if_neg hcond]
        rcases List.mem_cons.mp hq with rfl | hq2
        · have huniq : (text, lang) ∈ uniq := by
            by_contra hnu
            exact hcond ⟨hne, hnu⟩
          exact pre_cache_loop_mono synth _ _ _ _ _ _ (hinv _ huniq)
        · exact ih _ _ _ _ hinv q hq2 hne

theorem pre_cache_loop_no_calls (synth : String → String → Except Unit Nat) :
    ∀ (pairs uniq : List (String × String)) (disk : CacheDisk) (hits calls : Nat),
      (∀ q ∈ pairs, q.1 ≠ "" → disk.lookup q ≠ none) →
      (pre_cache_loop synth pairs uniq disk hits calls).2.2 = calls := by
  intro pairs
  induction pairs with
  | nil => intro uniq disk hits calls _; rfl
  | cons p rest ih =>
      intro uniq disk hits calls hcov
      obtain ⟨text, lang⟩ := p
      rw [pre_cache_loop]
      by_cases hcond : text ≠ "" ∧ (text, lang) ∉ uniq
      · rw [if_pos hcond]
        have hmem : disk.lookup (text, lang) ≠ none :=
          hcov (text, lang) (List.mem_cons_self _ _) hcond.1
        obtain ⟨v, hv⟩ : ∃ v, disk.lookup (text, lang) = some v := by
          cases hl : disk.lookup (text, lang) with
          | none => exact absurd hl hmem
          | some v => exact ⟨v, rfl⟩
        have hred : real_gtts_api synth text lang disk hits calls =
            (v, disk, hits + 1, calls) := by
          unfold real_gtts_api
          rw [hv]
        simp only [hred]
        exact ih _ _ _ _ fun q hq => hcov q (List.mem_cons_of_mem _ hq)
      · rw [if_neg hcond]
        exact ih _ _ _ _ fun q hq => hcov q (List.mem_cons_of_mem _ hq)

/-- Claim C5: if a persisted cache entry for the key exists,
`real_gtts_api` returns the cached payload with no synthesis invocation
and leaves the disk unchanged; on a full miss it invokes synthesis exactly
once (`api_calls` rises by exactly 1) and, on success, persists the result
to disk before returning it; and a second pre-caching run over unchanged
state performs zero new synthesis API calls. -/
theorem claim_C5_cache_idempotence :
    (∀ (synth : String → String → Except Unit Nat) (text lang : String)
      (disk : CacheDisk) (hits calls : Nat) (p : FileData),
      disk.lookup (text, lang) = some p →
      real_gtts_api synth text lang disk hits calls = (p, disk, hits + 1, calls))
    ∧ (∀ (synth : String → String → Except Unit Nat) (text lang : String)
        (disk : CacheDisk) (hits calls v : Nat),
        disk.lookup (text, lang) = none → synth text lang = .ok v →
        real_gtts_api synth text lang disk hits calls =
          (.audio v, ((text, lang), FileData.audio v) :: disk, hits, calls + 1)
        ∧ (((text, lang), FileData.audio v) :: disk : CacheDisk).lookup (text, lang) =
            some (FileData.audio v))
    ∧ (∀ (synth : String → String → Except Unit Nat) (schedule : List ScheduleItem)
        (disk : CacheDisk),
        (pre_cache_day_segments synth schedule
          (pre_cache_day_segments synth schedule disk).1).2.2 = 0) := by
  refine ⟨?_, ?_, ?_⟩
  · intro synth text lang disk hits calls p h
    unfold real_gtts_api
    rw [h]
  · intro synth text lang disk hits calls v h hok
    constructor
    · unfold real_gtts_api
      rw [h, hok]
    · simp [CacheDisk.lookup]
  · intro synth schedule disk
    unfold pre_cache_day_segments
    refine pre_cache_loop_no_calls synth _ _ _ _ _ fun q hq hne => ?_
    exact pre_cache_loop_covers synth _ _ _ _ _ (fun r hr => absurd hr (List.not_mem_nil r))
      q hq hne

/-- Witness for claim C5 at concrete inputs: a hit returns the cached
payload without calling the synthesizer. -/
theorem claim_C5_witness :
    real_gtts_api (fun _ _ => Except.ok 42) "sol" "da"
        [(("sol", "da"), FileData.audio 9)] 0 0 =
      (FileData.audio 9, [(("sol", "da"), FileData.audio 9)], 1, 0) :=
  claim_C5_cache_idempotence.1 (fun _ _ => Except.ok 42) "sol" "da"
    [(("sol", "da"), FileData.audio 9)] 0 0 (FileData.audio 9) (by decide)

/-- Claim C6, counterexample: the persisted entry for ("sol", "da") is a
zero-byte file, yet `real_gtts_api` returns it as a cache hit — the
payload handed back is the empty file, `api_calls` stays 0 (the available
synthesizer, which would return audio 42, is never invoked) and the disk
is unchanged, so the bad entry is not treated as a miss and is never
regenerated. -/
theorem claim_C6_counterexample :
    real_gtts_api (fun _ _ => Except.ok 42) "sol" "da"
        [(("sol", "da"), FileData.empty)] 0 0 =
      (FileData.empty, [(("sol", "da"), FileData.empty)], 1, 0)
    ∧ FileData.empty ≠ FileData.audio 42 := by
  exact ⟨rfl, by decide⟩

/-- Claim C6 (amended): an existing persisted cache entry is returned as a
hit regardless of its contents; in particular a zero-byte (empty) entry is
returned as-is, with no synthesis call and no regeneration. -/
theorem claim_C6_empty_entry_returned :
    ∀ (synth : String → String → Except Unit Nat) (text lang : String)
      (disk : CacheDisk) (hits calls : Nat),
      disk.lookup (text, lang) = some FileData.empty →
      real_gtts_api synth text lang disk hits calls =
        (FileData.empty, disk, hits + 1, calls) := by
  intro synth text lang disk hits calls h
  unfold real_gtts_api
  rw [h]

/-- Witness for the amended claim C6 theorem at a concrete empty entry. -/
theorem claim_C6_witness :
    real_gtts_api (fun _ _ => Except.error ()) "vand" "en-GB"
        [(("vand", "en-GB"), FileData.empty)] 3 4 =
      (FileData.empty, [(("vand", "en-GB"), FileData.empty)], 4, 4) :=
  claim_C6_empty_entry_returned (fun _ _ => Except.error ()) "vand" "en-GB"
    [(("vand", "en-GB"), FileData.empty)] 3 4 (by decide)

namespace Config

/-- `Config.DURATION_TOLERANCE_SEC` (LL line 132), exactly 0.15. -/
def DURATION_TOLERANCE_SEC : ℚ := 15 / 100

/-- `Config.MOCK_CONTENT_DURATION_SEC` (LL line 129). -/
def MOCK_CONTENT_DURATION_SEC : ℚ := 1

end Config

/-- `verify_audio_duration_integrity` (LL lines 438-477).  The file system
and Pydub are abstracted into parameters: whether the file exists, its
size in bytes, and the result of measuring its duration (`.error` models a
Pydub/FFmpeg exception).  Durations are rationals.  The branch order
follows the source: missing file → invalid; mock mode → valid; zero-byte
file in real mode → valid; otherwise measure and compare against the
absolute tolerance (valid when the measurement library is unavailable).
The trailing `return False` of line 477 is unreachable for a natural
size. -/
def verify_audio_duration_integrity (fileExists : Bool) (size : Nat)
    (measure : Except Unit ℚ) (expected_duration_sec : ℚ)
    (use_real_concat_mode : Bool) (real_concat_available : Bool) : Bool × String :=
  if !fileExists then (false, "File not found.")
  else if !use_real_concat_mode then (true, "Mock mode: File existence confirmed.")
  else if size = 0 then
    (true, "File exists (0 bytes), assumed verified for mock run or due to errors.")
  else if real_concat_available then
    match measure with
    | .ok actual =>
        if |actual - expected_duration_sec| ≤ Config.DURATION_TOLERANCE_SEC then
          (true, "Duration VALID.")
        else (false, "Duration FAILED.")
    | .error _ => (false, "Pydub or FFmpeg error measuring audio duration.")
  else (true, "File exists, non-zero size, but Pydub or FFmpeg is not available.")

/-- Claim C7, counterexample: in real-audio mode
(`use_real_concat_mode = true`), a zero-byte compiled track is reported
`valid = true` (LL lines 453-454), although the claim allows that only in
mock mode. -/
theorem claim_C7_counterexample :
    (verify_audio_duration_integrity true 0 (Except.ok 0) 10 true true).1 = true := rfl

/-- Claim C7 (amended): the validator reports invalid on a missing file in
every mode; valid on any existing file in mock mode; valid on a zero-byte
file in real mode as well (not only in mock mode); and in real mode, on a
non-empty file, with the measurement library available and the measurement
succeeding, it reports `valid` iff the absolute difference between actual
and expected duration is within the configured tolerance. -/
theorem claim_C7_validator_behavior :
    (∀ (size : Nat) (measure : Except Unit ℚ) (e : ℚ) (rm ra : Bool),
      (verify_audio_duration_integrity false size measure e rm ra).1 = false)
    ∧ (∀ (size : Nat) (measure : Except Unit ℚ) (e : ℚ) (ra : Bool),
        (verify_audio_duration_integrity true size measure e false ra).1 = true)
    ∧ (∀ (measure : Except Unit ℚ) (e : ℚ) (ra : Bool),
        (verify_audio_duration_integrity true 0 measure e true ra).1 = true)
    ∧ (∀ (size : Nat) (a e : ℚ), size ≠ 0 →
        ((verify_audio_duration_integrity true size (Except.ok a) e true true).1 = true ↔
          |a - e| ≤ Config.DURATION_TOLERANCE_SEC)) := by
  refine ⟨fun size measure e rm ra => rfl, fun size measure e ra => rfl,
    fun measure e ra => rfl, fun size a e hs => ?_⟩
  unfold verify_audio_duration_integrity
  rw [if_neg (by simp), if_neg (by simp), if_neg hs, if_pos rfl]
  by_cases h : |a - e| ≤ Config.DURATION_TOLERANCE_SEC
  · simp [h]
  · simp [h]

/-- Witness for the amended claim C7 theorem at a concrete non-empty real
track. -/
theorem claim_C7_witness :
    (verify_audio_duration_integrity true 5 (Except.ok 10) 10 true true).1 = true ↔
      |(10 : ℚ) - 10| ≤ Config.DURATION_TOLERANCE_SEC :=
  claim_C7_validator_behavior.2.2.2 5 10 10 (by decide)

/-!
Compiler model: `generate_audio_from_template` (LL lines 330-435) in real
concatenation mode.  The bytes in the cache and the Pydub objects are
abstracted to durations: a cached segment file is `missing` (no file),
`empty` (zero bytes), `bad` (exists, non-empty, but `AudioSegment.from_mp3`
raises) or `ok d` (decodes to audio of duration `d` seconds).  The
accumulated `final_audio` is represented by its total duration (first
component); the second component is `expected_duration_sec`.
-/

/-- State of one cached segment file as seen by the compiler. -/
inductive SegFile where
  | missing : SegFile
  | empty : SegFile
  | bad : SegFile
  | ok : ℚ → SegFile
deriving DecidableEq, Repr

/-- Splitting a string at every space character, keeping empty pieces:
the behaviour of `template.split(Config.TEMPLATE_DELIMITER)` (LL line 361)
for the single-space delimiter, written as structural recursion over the
character list so that it evaluates. -/
def splitSpaceAux : List Char → List Char → List String
  | [], acc => [String.mk acc.reverse]
  | c :: cs, acc =>
      if c = ' ' then String.mk acc.reverse :: splitSpaceAux cs []
      else splitSpaceAux cs (c :: acc)

/-- Split on the template delimiter (a single space). -/
def splitOnSpace (s : String) : List String := splitSpaceAux s.toList []

/-- `Config.AUDIO_TEMPLATES` (LL lines 108-112). -/
def AUDIO_TEMPLATES (key : String) : Option String :=
  if key = "workout" then some "SP W2 W1 L2 L1"
  else if key = "review_forward" then some "SP W2 W1 L1 L2"
  else if key = "review_reverse" then some "SP W2 W1 L2 L1"
  else none

/-- `Config.PAUSE_DURATIONS` (LL lines 100-106). -/
def PAUSE_DURATIONS (key : String) : Option ℚ :=
  if key = "SP" then some 3
  else if key = "W2" then some (1 / 4)
  else if key = "W1" then some (1 / 4)
  else if key = "L2" then some (1 / 2)
  else if key = "L1" then some (1 / 2)
  else none

/-- `Config.SEGMENT_ACTIONS` (LL lines 121-124). -/
def SEGMENT_ACTIONS (key : String) : Option String :=
  if Config.CONTENT_KEYS.contains key then some "CONTENT"
  else if key = "SP" then some "EXPLICIT_PAUSE"
  else none

/-- `get_segment_lang_code_full` (LL lines 293-296) with the LL `Config`
language maps (lines 77-89): W2 and L2 are TARGET (`da-DK`), everything
else resolves to the BASE full code (`en-US`). -/
def get_segment_lang_code_full (segment_key : String) : String :=
  if segment_key = "W2" ∨ segment_key = "L2" then "da-DK" else "en-US"

/-- One iteration of the inner segment loop of
`generate_audio_from_template` (LL lines 361-417), in real mode.
`acc = (final_audio duration, expected_duration_sec)`.  A CONTENT segment
first adds the 1.0 s estimate to `expected`; if the cached file exists,
is non-empty and decodes, the decoded audio is appended and `expected` is
adjusted to the actual duration (`-= estimate; += actual`), otherwise
0.1 s of silence is appended and the estimate stays; then the implicit
trailing pause is appended to both.  An SP segment appends the explicit
pause to both.  Unknown or empty tokens are skipped. -/
def audioSegStep (cache : String → String → SegFile) (it : ScheduleItem)
    (acc : ℚ × ℚ) (segment_key : String) : ℚ × ℚ :=
  if segment_key = "" then acc
  else
    match SEGMENT_ACTIONS segment_key with
    | none => acc
    | some action =>
      if action = "CONTENT" then
        match cache (contentOf it segment_key) (get_segment_lang_code_full segment_key),
            PAUSE_DURATIONS segment_key with
        | .ok d, some p =>
            (acc.1 + d + p,
             acc.2 + Config.MOCK_CONTENT_DURATION_SEC - Config.MOCK_CONTENT_DURATION_SEC + d + p)
        | .ok d, none =>
            (acc.1 + d,
             acc.2 + Config.MOCK_CONTENT_DURATION_SEC - Config.MOCK_CONTENT_DURATION_SEC + d)
        | _, some p => (acc.1 + 1 / 10 + p, acc.2 + Config.MOCK_CONTENT_DURATION_SEC + p)
        | _, none => (acc.1 + 1 / 10, acc.2 + Config.MOCK_CONTENT_DURATION_SEC)
      else if action = "EXPLICIT_PAUSE" then
        match PAUSE_DURATIONS segment_key with
        | some p => (acc.1 + p, acc.2 + p)
        | none => acc
      else acc

/-- `generate_audio_from_template` (LL lines 330-435) in real mode,
restricted to the duration bookkeeping: the template string for the key is
split on the delimiter and the segment loop is run for every schedule
entry, starting from an empty track and a zero expected duration.
Returns `(final_audio duration, expected_duration_sec)`. -/
def generate_audio_from_template (cache : String → String → SegFile)
    (template_key : String) (data_list : List ScheduleItem) : ℚ × ℚ :=
  let template := (AUDIO_TEMPLATES template_key).getD ""
  data_list.foldl (fun acc it =>
    (splitOnSpace template).foldl (audioSegStep cache it) acc) (0, 0)

/-- Claim C8, counterexample: compiling the workout template in real mode
for one item whose four segments are all cache misses yields
`expected_duration = 8.5` s (the 1.0 s estimates are kept) while the
track actually assembled lasts 4.9 s (0.1 s silence per miss), so the
returned expected duration is not the sum of the appended segments'
actual durations plus the pauses. -/
theorem claim_C8_counterexample :
    generate_audio_from_template (fun _ _ => SegFile.missing) "workout" [exSchedItem] =
      (49 / 10, 17 / 2)
    ∧ (49 / 10 : ℚ) ≠ 17 / 2 := by
  constructor
  · have hg : generate_audio_from_template (fun _ _ => SegFile.missing) "workout" [exSchedItem] =
        ((0 : ℚ) + 3 + 1 / 10 + 1 / 4 + 1 / 10 + 1 / 4 + 1 / 10 + 1 / 2 + 1 / 10 + 1 / 2,
         (0 : ℚ) + 3 + 1 + 1 / 4 + 1 + 1 / 4 + 1 + 1 / 2 + 1 + 1 / 2) := rfl
    rw [hg, Prod.ext_iff]
    norm_num
  · norm_num

theorem SEGMENT_ACTIONS_content {seg : String}
    (h : SEGMENT_ACTIONS seg = some "CONTENT") : seg ∈ Config.CONTENT_KEYS := by
  unfold SEGMENT_ACTIONS at h
  by_cases hc : Config.CONTENT_KEYS.contains seg
  · exact List.mem_of_elem_eq_true hc
  · rw [if_neg hc] at h
    by_cases hsp : seg = "SP"
    · rw [if_pos hsp] at h
      simp at h
    · rw [if_neg hsp] at h
      cases h

theorem audioSegStep_preserve (cache : String → String → SegFile)
    (it : ScheduleItem) (seg : String) (acc : ℚ × ℚ)
    (hok : ∀ k ∈ Config.CONTENT_KEYS,
      ∃ d, cache (contentOf it k) (get_segment_lang_code_full k) = SegFile.ok d)
    (h : acc.2 = acc.1) :
    (audioSegStep cache it acc seg).2 = (audioSegStep cache it acc seg).1 := by
  unfold audioSegStep
  by_cases hemp : seg = ""
  · simp [hemp, h]
  · rw [if_neg hemp]
    cases hact : SEGMENT_ACTIONS seg with
    | none => exact h
    | some action =>
        dsimp only
        by_cases hC : action = "CONTENT"
        · subst hC
          rw [if_pos rfl]
          obtain ⟨d, hd⟩ := hok seg (SEGMENT_ACTIONS_content hact)
          rw [hd]
          cases hp : PAUSE_DURATIONS seg with
          | none => simp [h, Config.MOCK_CONTENT_DURATION_SEC]
          | some p => simp [h, Config.MOCK_CONTENT_DURATION_SEC]
        · rw [if_neg hC]
          by_cases hE : action = "EXPLICIT_PAUSE"
          · subst hE
            rw [if_pos rfl]
            cases hp : PAUSE_DURATIONS seg with
            | none => exact h
            | some p => simp [h]
          · rw [if_neg hE]
            exact h

theorem foldl_audioSegStep_preserve (cache : String → String → SegFile)
    (it : ScheduleItem)
    (hok : ∀ k ∈ Config.CONTENT_KEYS,
      ∃ d, cache (contentOf it k) (get_segment_lang_code_full k) = SegFile.ok d) :
    ∀ (segs : List String) (acc : ℚ × ℚ), acc.2 = acc.1 →
      (segs.foldl (audioSegStep cache it) acc).2 =
        (segs.foldl (audioSegStep cache it) acc).1 := by
  intro segs
  induction segs with
  | nil => exact fun acc h => h
  | cons seg segs ih =>
      intro acc h
      rw [List.foldl_cons]
      exact ih _ (audioSegStep_preserve cache it seg acc hok h)

/-- Claim C8 (amended): in real-audio mode, whenever every content
segment of every schedule entry resolves in the cache to a file that
exists, is non-empty and decodes, the `expected_duration` returned by the
compiler equals the total duration of the assembled track — the sum of the
actual durations of the appended payloads plus every implicit and explicit
pause; an unresolved segment instead contributes its 1.0 s estimate to
`expected_duration` while 0.1 s of silence is appended to the track. -/
theorem claim_C8_expected_equals_track_duration :
    ∀ (cache : String → String → SegFile) (template_key : String)
      (data_list : List ScheduleItem),
      (∀ it ∈ data_list, ∀ k ∈ Config.CONTENT_KEYS,
        ∃ d, cache (contentOf it k) (get_segment_lang_code_full k) = SegFile.ok d) →
      (generate_audio_from_template cache template_key data_list).2 =
        (generate_audio_from_template cache template_key data_list).1 := by
  intro cache template_key data_list hok
  unfold generate_audio_from_template
  have main : ∀ (l : List ScheduleItem), (∀ it ∈ l, ∀ k ∈ Config.CONTENT_KEYS,
      ∃ d, cache (contentOf it k) (get_segment_lang_code_full k) = SegFile.ok d) →
      ∀ (acc : ℚ × ℚ), acc.2 = acc.1 →
      (l.foldl (fun acc it =>
        (splitOnSpace ((AUDIO_TEMPLATES template_key).getD "")).foldl
          (audioSegStep cache it) acc) acc).2 =
      (l.foldl (fun acc it =>
        (splitOnSpace ((AUDIO_TEMPLATES template_key).getD "")).foldl
          (audioSegStep cache it) acc) acc).1 := by
    intro l
    induction l with
    | nil => exact fun _ acc h => h
    | cons it l ih =>
        intro hl acc h
        rw [List.foldl_cons]
        refine ih (fun b hb => hl b (List.mem_cons_of_mem it hb)) _ ?_
        exact foldl_audioSegStep_preserve cache it
          (hl it (List.mem_cons_self it l)) _ acc h
  exact main data_list hok (0, 0) rfl

/-- Witness for the amended claim C8 theorem: a cache in which every
segment decodes to 2 seconds of audio. -/
theorem claim_C8_witness :
    (generate_audio_from_template (fun _ _ => SegFile.ok 2) "workout" [exSchedItem]).2 =
      (generate_audio_from_template (fun _ _ => SegFile.ok 2) "workout" [exSchedItem]).1 :=
  claim_C8_expected_equals_track_duration (fun _ _ => SegFile.ok 2) "workout"
    [exSchedItem] (fun _ _ _ _ => ⟨2, rfl⟩)
